import Mathlib

/-!
Verification of the FluidDemo control harness (src/Demos/FluidDemo/main.cpp).

The embedding below translates the demo's scene construction
(createBreakingDam, addWall, initBoundaryData), its render-tick driver
(timeStep), its reset handler, and its mouse-drag perturbation handler
(mouseMove) into Lean.  Real-valued quantities are modelled by the exact
rationals; particle arrays are lists of 3D rational vectors written to by
index, mirroring the source's indexed stores.
-/

namespace FluidDemo

/-- 3D vector of (exact) reals, modelling Vector3r. -/
abbrev Vector3r : Type := ℚ × ℚ × ℚ

/-! ## Scenario constants, from the top of main.cpp -/

/-- particleRadius = 0.025 -/
def particleRadius : ℚ := 1 / 40

/-- width = 15 -/
def width : ℕ := 15

/-- depth = 15 -/
def depth : ℕ := 15

/-- height = 20 -/
def height : ℕ := 20

/-- containerWidth = (width + 1) * particleRadius * (2.0 * 5.0) -/
def containerWidth : ℚ := ((width : ℚ) + 1) * particleRadius * (2 * 5)

/-- containerDepth = (depth + 1) * particleRadius * 2.0 -/
def containerDepth : ℚ := ((depth : ℚ) + 1) * particleRadius * 2

/-- containerHeight = 4.0 -/
def containerHeight : ℚ := 4

/-! ## Indexed parallel fills

Both createBreakingDam and addWall resize an array and then fill it with a
parallel triple loop, each iteration storing one value at an index computed
from its own lattice coordinate.  `cells3 X Y Z` enumerates the lattice
coordinates of such a triple loop in loop order, and `setCells` performs the
sequence of indexed stores; since (we prove) the target indices are pairwise
distinct, the stores commute and the result is the same for any order of
parallel execution. -/

/-- The lattice coordinates (j, k, l) of a triple loop, in loop order. -/
def cells3 (X Y Z : ℕ) : List (ℕ × ℕ × ℕ) :=
  (List.range X).flatMap fun j =>
    (List.range Y).flatMap fun k =>
      (List.range Z).map fun l => (j, k, l)

/-- Perform one indexed store per cell: cell c stores value (val c) at
index (idx c) of the list. -/
def setCells {α ι : Type} (idx : ι → ℕ) (val : ι → α)
    (cells : List ι) (init : List α) : List α :=
  cells.foldl (fun l c => l.set (idx c) (val c)) init

theorem setCells_cons {α ι : Type} (idx : ι → ℕ) (val : ι → α)
    (a : ι) (cs : List ι) (init : List α) :
    setCells idx val (a :: cs) init
      = setCells idx val cs (init.set (idx a) (val a)) := rfl

theorem setCells_length {α ι : Type} (idx : ι → ℕ) (val : ι → α)
    (cells : List ι) (init : List α) :
    (setCells idx val cells init).length = init.length := by
  induction cells generalizing init with
  | nil => rfl
  | cons a cs ih =>
    rw [setCells_cons, ih, List.length_set]

theorem setCells_getElem?_notMem {α ι : Type} {idx : ι → ℕ} {val : ι → α}
    {cells : List ι} {init : List α} {p : ℕ}
    (h : ∀ c ∈ cells, idx c ≠ p) :
    (setCells idx val cells init)[p]? = init[p]? := by
  induction cells generalizing init with
  | nil => rfl
  | cons a cs ih =>
    rw [setCells_cons, ih fun c hc => h c (List.mem_cons_of_mem a hc)]
    exact List.getElem?_set_ne (h a (List.mem_cons_self a cs))

theorem setCells_getElem?_unique {α ι : Type} {idx : ι → ℕ} {val : ι → α}
    {cells : List ι} {init : List α} {c : ι}
    (hc : c ∈ cells) (hu : ∀ c' ∈ cells, idx c' = idx c → c' = c)
    (hlt : idx c < init.length) :
    (setCells idx val cells init)[idx c]? = some (val c) := by
  induction cells generalizing init with
  | nil => cases hc
  | cons a cs ih =>
    rw [setCells_cons]
    by_cases hmem : c ∈ cs
    · exact ih hmem (fun c' h1 h2 => hu c' (List.mem_cons_of_mem a h1) h2)
        (by rw [List.length_set]; exact hlt)
    · have hac : c = a := by
        rcases List.mem_cons.mp hc with h | h
        · exact h
        · exact absurd h hmem
      subst hac
      rw [setCells_getElem?_notMem]
      · exact List.getElem?_set_self hlt
      · intro c' hc' hne
        exact hmem (hu c' (List.mem_cons_of_mem c hc') hne ▸ hc')

theorem mem_cells3 {X Y Z : ℕ} {t : ℕ × ℕ × ℕ} :
    t ∈ cells3 X Y Z ↔ t.1 < X ∧ t.2.1 < Y ∧ t.2.2 < Z := by
  obtain ⟨j, k, l⟩ := t
  simp [cells3, List.mem_flatMap, List.mem_map, List.mem_range]
  constructor
  · rintro ⟨a, ha, b, hb, c, hc, h1, h2, h3⟩
    exact ⟨h1 ▸ ha, h2 ▸ hb, h3 ▸ hc⟩
  · rintro ⟨hj, hk, hl⟩
    exact ⟨j, hj, k, hk, l, hl, rfl, rfl, rfl⟩

/-! ## Mixed-radix index arithmetic

The stores of a triple loop over (X, Y, Z) cells target index
j*(Y*Z) + k*Z + l (plus a start offset).  These indices are pairwise
distinct and cover exactly the resized tail. -/

theorem digit2_lt {Y Z k l : ℕ} (hk : k < Y) (hl : l < Z) :
    k * Z + l < Y * Z := by
  calc k * Z + l < k * Z + Z := Nat.add_lt_add_left hl _
    _ = (k + 1) * Z := by ring
    _ ≤ Y * Z := Nat.mul_le_mul_right Z hk

theorem digit3_lt {X Y Z j k l : ℕ} (hj : j < X) (hk : k < Y) (hl : l < Z) :
    j * (Y * Z) + (k * Z + l) < X * (Y * Z) := by
  calc j * (Y * Z) + (k * Z + l) < j * (Y * Z) + Y * Z :=
        Nat.add_lt_add_left (digit2_lt hk hl) _
    _ = (j + 1) * (Y * Z) := by ring
    _ ≤ X * (Y * Z) := Nat.mul_le_mul_right (Y * Z) hj

theorem unique_quot_rem {m a b c d : ℕ} (hb : b < m) (hd : d < m)
    (h : a * m + b = c * m + d) : a = c ∧ b = d := by
  have hm : 0 < m := by omega
  have e1 : (a * m + b) / m = a := by
    rw [show a * m + b = b + m * a from by ring,
      Nat.add_mul_div_left _ _ hm, Nat.div_eq_of_lt hb, Nat.zero_add]
  have e2 : (c * m + d) / m = c := by
    rw [show c * m + d = d + m * c from by ring,
      Nat.add_mul_div_left _ _ hm, Nat.div_eq_of_lt hd, Nat.zero_add]
  have hac : a = c := by rw [← e1, h, e2]
  subst hac
  exact ⟨rfl, by omega⟩

theorem digit3_inj {Y Z j k l j' k' l' : ℕ}
    (hk : k < Y) (hl : l < Z) (hk' : k' < Y) (hl' : l' < Z)
    (h : j * (Y * Z) + (k * Z + l) = j' * (Y * Z) + (k' * Z + l')) :
    j = j' ∧ k = k' ∧ l = l' := by
  obtain ⟨hj, hr⟩ := unique_quot_rem (digit2_lt hk hl) (digit2_lt hk' hl') h
  obtain ⟨hkk, hll⟩ := unique_quot_rem hl hl' hr
  exact ⟨hj, hkk, hll⟩

/-! ## Scene Builder: createBreakingDam's fluid grid -/

/-- diam = 2.0 * particleRadius -/
def diam : ℚ := 2 * particleRadius

/-- startX = -0.5 * containerWidth + diam -/
def startX : ℚ := -(1 / 2 : ℚ) * containerWidth + diam

/-- startY = diam -/
def startY : ℚ := diam

/-- startZ = -0.5 * containerDepth + diam -/
def startZ : ℚ := -(1 / 2 : ℚ) * containerDepth + diam

/-- The value stored for lattice coordinate (i, j, k):
diam * Vector3r(i, j, k) + Vector3r(startX, startY, startZ). -/
def fluidParticle (i j k : ℕ) : Vector3r :=
  diam • ((i : ℚ), (j : ℚ), (k : ℚ)) + (startX, startY, startZ)

/-- The fluid particle array built by createBreakingDam: resized to
width*height*depth and filled by the parallel triple loop, coordinate
(i, j, k) storing fluidParticle i j k at index i*height*depth + j*depth + k. -/
def fluidParticles : List Vector3r :=
  setCells (fun c => c.1 * height * depth + c.2.1 * depth + c.2.2)
    (fun c => fluidParticle c.1 c.2.1 c.2.2)
    (cells3 width height depth)
    (List.replicate (width * height * depth) 0)

/-! ## Scene Builder: addWall and initBoundaryData -/

/-- particleDistance = 2.0 * model.getParticleRadius(); the model's radius
is set to particleRadius before any wall is built. -/
def particleDistance : ℚ := 2 * particleRadius

/-- The per-axis step counts of addWall:
steps = (unsigned int)(diff[axis] / particleDistance) + 1, where the
float-to-unsigned cast truncates the (non-negative) quotient. -/
def wallSteps (mn mx : Vector3r) : ℕ × ℕ × ℕ :=
  ((⌊(mx.1 - mn.1) / particleDistance⌋).toNat + 1,
   (⌊(mx.2.1 - mn.2.1) / particleDistance⌋).toNat + 1,
   (⌊(mx.2.2 - mn.2.2) / particleDistance⌋).toNat + 1)

/-- addWall(minX, maxX, boundaryParticles): resizes the array by
stepsX*stepsY*stepsZ and fills the new tail with the parallel triple loop,
coordinate (j, k, l) storing minX + particleDistance*(j, k, l) at index
startIndex + j*stepsY*stepsZ + k*stepsZ + l. -/
def addWall (mn mx : Vector3r) (bp : List Vector3r) : List Vector3r :=
  setCells
    (fun c => bp.length + (c.1 * ((wallSteps mn mx).2.1 * (wallSteps mn mx).2.2)
      + (c.2.1 * (wallSteps mn mx).2.2 + c.2.2)))
    (fun c => mn + ((c.1 : ℚ) * particleDistance, (c.2.1 : ℚ) * particleDistance,
      (c.2.2 : ℚ) * particleDistance))
    (cells3 (wallSteps mn mx).1 (wallSteps mn mx).2.1 (wallSteps mn mx).2.2)
    (bp ++ List.replicate
      ((wallSteps mn mx).1 * ((wallSteps mn mx).2.1 * (wallSteps mn mx).2.2)) 0)

/-- x1 = -containerWidth / 2.0 -/
def x1 : ℚ := -containerWidth / 2

/-- x2 = containerWidth / 2.0 -/
def x2 : ℚ := containerWidth / 2

/-- y1 = 0.0 -/
def y1 : ℚ := 0

/-- y2 = containerHeight -/
def y2 : ℚ := containerHeight

/-- z1 = -containerDepth / 2.0 -/
def z1 : ℚ := -containerDepth / 2

/-- z2 = containerDepth / 2.0 -/
def z2 : ℚ := containerDepth / 2

/-- The floor wall, the first of the six addWall calls of initBoundaryData
(starting from an empty boundary array). -/
def floorWall : List Vector3r := addWall (x1, y1, z1) (x2, y1, z2) []

/-- initBoundaryData: the six walls appended in source order
(floor, top, left, right, back, front). -/
def initBoundaryData : List Vector3r :=
  addWall (x1, y1, z2) (x2, y2, z2)
    (addWall (x1, y1, z1) (x2, y2, z1)
      (addWall (x2, y1, z1) (x2, y2, z2)
        (addWall (x1, y1, z1) (x1, y2, z2)
          (addWall (x1, y2, z1) (x2, y2, z2)
            (addWall (x1, y1, z1) (x2, y1, z2) [])))))

/-! ## Wall lemmas -/

theorem addWall_length (mn mx : Vector3r) (bp : List Vector3r) :
    (addWall mn mx bp).length
      = bp.length
        + ((wallSteps mn mx).1 * ((wallSteps mn mx).2.1 * (wallSteps mn mx).2.2)) := by
  rw [addWall, setCells_length, List.length_append, List.length_replicate]

/-- The step counts of the floor wall of the built scenario:
extents (containerWidth, 0, containerDepth) = (4, 0, 4/5) at spacing 1/20. -/
theorem wallSteps_floorWall : wallSteps (x1, y1, z1) (x2, y1, z2) = (81, 1, 17) := by
  have hx : (⌊((x2, y1, z2).1 - (x1, y1, z1).1) / particleDistance⌋ : ℤ) = 80 := by
    norm_num [x1, x2, particleDistance, particleRadius, containerWidth, width]
  have hy : (⌊((x2, y1, z2).2.1 - (x1, y1, z1).2.1) / particleDistance⌋ : ℤ) = 0 := by
    norm_num [y1, particleDistance, particleRadius]
  have hz : (⌊((x2, y1, z2).2.2 - (x1, y1, z1).2.2) / particleDistance⌋ : ℤ) = 16 := by
    norm_num [z1, z2, particleDistance, particleRadius, containerDepth, depth]
  rw [wallSteps, hx, hy, hz]
  decide

/-- C3 (counterexample): the floor wall of the built scenario does not
contain 256 particles; its extents are (containerWidth, 0, containerDepth)
= (4, 0, 4/5) at spacing 1/20, giving 81 * 1 * 17 = 1377 particles. -/
theorem floorWall_count_cex : floorWall.length ≠ 256 := by
  rw [floorWall, addWall_length, wallSteps_floorWall]
  decide

/-- C3 (amended): addWall appends exactly
(floor(Ex/s)+1) * (floor(Ey/s)+1) * (floor(Ez/s)+1) particles for extents
(Ex, Ey, Ez) and spacing s = particleDistance; for a wall with a degenerate
y axis this equals (floor(Ex/s)+1) * (floor(Ez/s)+1) for the two in-plane
axes; and the floor wall of the built scenario contains exactly
81 * 17 = 1377 particles (not 256). -/
theorem addWall_counts (mn mx : Vector3r) (bp : List Vector3r) :
    ((addWall mn mx bp).length = bp.length
      + ((⌊(mx.1 - mn.1) / particleDistance⌋.toNat + 1)
        * ((⌊(mx.2.1 - mn.2.1) / particleDistance⌋.toNat + 1)
          * (⌊(mx.2.2 - mn.2.2) / particleDistance⌋.toNat + 1))))
    ∧ (mx.2.1 = mn.2.1 →
        (addWall mn mx bp).length = bp.length
          + ((⌊(mx.1 - mn.1) / particleDistance⌋.toNat + 1)
            * (⌊(mx.2.2 - mn.2.2) / particleDistance⌋.toNat + 1)))
    ∧ floorWall.length = 81 * 17 := by
  refine ⟨addWall_length mn mx bp, ?_, ?_⟩
  · intro hdeg
    rw [addWall_length]
    unfold wallSteps
    rw [hdeg, sub_self, zero_div, Int.floor_zero]
    norm_num
  · rw [floorWall, addWall_length, wallSteps_floorWall]
    decide

/-- Witness for addWall_counts: a degenerate wall of extents (0, 0, 0). -/
theorem addWall_counts_w :
    (addWall (0, 0, 0) (0, 0, 0) []).length
      = List.length ([] : List Vector3r)
        + ((⌊(((0, 0, 0) : Vector3r).1 - ((0, 0, 0) : Vector3r).1)
              / particleDistance⌋.toNat + 1)
          * (⌊(((0, 0, 0) : Vector3r).2.2 - ((0, 0, 0) : Vector3r).2.2)
              / particleDistance⌋.toNat + 1)) :=
  (addWall_counts (0, 0, 0) (0, 0, 0) []).2.1 rfl

/-- C9: for addWall with component-wise non-negative extents, every per-axis
step count is at least 1 (so every wall holds at least one particle), every
written index startIndex + j*stepsY*stepsZ + (k*stepsZ + l) lies inside the
newly resized tail, and the previously appended boundary particles are
unchanged. -/
theorem addWall_safe (mn mx : Vector3r) (bp : List Vector3r) (j k l p : ℕ)
    (hx : mn.1 ≤ mx.1) (hy : mn.2.1 ≤ mx.2.1) (hz : mn.2.2 ≤ mx.2.2)
    (hj : j < (wallSteps mn mx).1) (hk : k < (wallSteps mn mx).2.1)
    (hl : l < (wallSteps mn mx).2.2) (hp : p < bp.length) :
    (1 ≤ (wallSteps mn mx).1 ∧ 1 ≤ (wallSteps mn mx).2.1
      ∧ 1 ≤ (wallSteps mn mx).2.2)
    ∧ bp.length < (addWall mn mx bp).length
    ∧ bp.length ≤ bp.length
        + (j * ((wallSteps mn mx).2.1 * (wallSteps mn mx).2.2)
          + (k * (wallSteps mn mx).2.2 + l))
    ∧ bp.length
        + (j * ((wallSteps mn mx).2.1 * (wallSteps mn mx).2.2)
          + (k * (wallSteps mn mx).2.2 + l))
      < (addWall mn mx bp).length
    ∧ (addWall mn mx bp)[p]? = bp[p]? := by
  refine ⟨⟨Nat.succ_le_succ (Nat.zero_le _), Nat.succ_le_succ (Nat.zero_le _),
    Nat.succ_le_succ (Nat.zero_le _)⟩, ?_, Nat.le_add_right _ _, ?_, ?_⟩
  · rw [addWall_length]
    have hpos : 0 < (wallSteps mn mx).1
        * ((wallSteps mn mx).2.1 * (wallSteps mn mx).2.2) :=
      Nat.mul_pos (by omega) (Nat.mul_pos (by omega) (by omega))
    omega
  · rw [addWall_length]
    exact Nat.add_lt_add_left (digit3_lt hj hk hl) _
  · rw [addWall]
    rw [setCells_getElem?_notMem fun c hc => by omega]
    exact List.getElem?_append_left hp

/-- Witness for addWall_safe: the floor wall appended after one previously
existing boundary particle. -/
theorem addWall_safe_w :
    ((0, 0, 0) : Vector3r).1 ≤ ((0, 0, 0) : Vector3r).1
    ∧ 0 < (wallSteps (0, 0, 0) (0, 0, 0)).1
    ∧ 0 < List.length [((0, 0, 0) : Vector3r)]
    ∧ (addWall (0, 0, 0) (0, 0, 0) [(0, 0, 0)])[0]?
        = [((0, 0, 0) : Vector3r)][0]? :=
  ⟨le_refl _, by simp [wallSteps, particleDistance], by decide,
    (addWall_safe (0, 0, 0) (0, 0, 0) [(0, 0, 0)] 0 0 0 0
      (le_refl _) (le_refl _) (le_refl _)
      (by simp [wallSteps, particleDistance])
      (by simp [wallSteps, particleDistance])
      (by simp [wallSteps, particleDistance])
      (by decide)).2.2.2.2⟩

/-! ## Fluid grid theorems -/

theorem fluidParticles_idx_unique {i j k : ℕ}
    (hi : i < width) (hj : j < height) (hk : k < depth) :
    ∀ c' ∈ cells3 width height depth,
      c'.1 * height * depth + c'.2.1 * depth + c'.2.2
        = i * height * depth + j * depth + k →
      c' = ((i, j, k) : ℕ × ℕ × ℕ) := by
  rintro ⟨a, b, c⟩ hmem heq
  rw [mem_cells3] at hmem
  obtain ⟨ha, hb, hc⟩ := hmem
  simp only [width, height, depth] at ha hb hc hi hj hk heq
  simp only [Prod.mk.injEq]
  omega

/-- C1: the fluid particle for lattice coordinate (i, j, k) is written at
output index i*height*depth + j*depth + k with position
2*radius*(i, j, k) plus the fixed start offset; the index map is injective
on the lattice (each output cell is written exactly once, determined solely
by its lattice coordinate), and the output is a pure function of the
constants, hence identical across repeated runs and any parallel fan-out. -/
theorem fluidParticles_indexed (i j k : ℕ)
    (hi : i < width) (hj : j < height) (hk : k < depth) :
    fluidParticles.length = width * height * depth
    ∧ fluidParticles[i * height * depth + j * depth + k]?
        = some (fluidParticle i j k)
    ∧ ∀ i' j' k', i' < width → j' < height → k' < depth →
        i' * height * depth + j' * depth + k'
          = i * height * depth + j * depth + k →
        i' = i ∧ j' = j ∧ k' = k := by
  refine ⟨?_, ?_, ?_⟩
  · rw [fluidParticles, setCells_length, List.length_replicate]
  · have hmem : ((i, j, k) : ℕ × ℕ × ℕ) ∈ cells3 width height depth :=
      mem_cells3.mpr ⟨hi, hj, hk⟩
    have hlt : i * height * depth + j * depth + k
        < (List.replicate (width * height * depth) (0 : Vector3r)).length := by
      rw [List.length_replicate]
      simp only [width, height, depth] at hi hj hk ⊢
      omega
    exact @setCells_getElem?_unique Vector3r (ℕ × ℕ × ℕ)
      (fun c => c.1 * height * depth + c.2.1 * depth + c.2.2)
      (fun c => fluidParticle c.1 c.2.1 c.2.2)
      (cells3 width height depth)
      (List.replicate (width * height * depth) 0)
      (i, j, k) hmem (fluidParticles_idx_unique hi hj hk) hlt
  · intro i' j' k' hi' hj' hk' heq
    have := fluidParticles_idx_unique hi hj hk (i', j', k')
      (mem_cells3.mpr ⟨hi', hj', hk'⟩) heq
    simp only [Prod.mk.injEq] at this
    exact ⟨this.1, this.2.1, this.2.2⟩

/-- Witness for fluidParticles_indexed at lattice coordinate (0, 0, 0). -/
theorem fluidParticles_indexed_w :
    0 < width ∧ 0 < height ∧ 0 < depth
    ∧ fluidParticles[0 * height * depth + 0 * depth + 0]?
        = some (fluidParticle 0 0 0) :=
  ⟨by decide, by decide, by decide,
    (fluidParticles_indexed 0 0 0 (by decide) (by decide) (by decide)).2.1⟩

/-- C4 (counterexample): the sampled fluid grid is NOT horizontally centered
in x inside the container: the container's x range is symmetric about 0, but
the least and greatest sampled x coordinates sum to -16/5, not 0. -/
theorem fluid_not_centered_x_cex :
    (fluidParticle 0 0 0).1 + (fluidParticle (width - 1) 0 0).1 ≠ 0 := by
  norm_num [fluidParticle, width, diam, startX, startY, startZ,
    containerWidth, containerDepth, particleRadius]

/-- C4 (amended): the fluid grid has spacing exactly 2*radius between
adjacent lattice neighbours on every axis, its bottom layer sits at the base
height startY, it is centered in z inside the container (the sampled z
extents are symmetric about the container's z center 0), but in x it is not
centered: it starts at distance 2*radius from the container's left wall x1. -/
theorem fluidGrid_layout (i j k : ℕ) :
    fluidParticle (i + 1) j k - fluidParticle i j k = (diam, 0, 0)
    ∧ fluidParticle i (j + 1) k - fluidParticle i j k = (0, diam, 0)
    ∧ fluidParticle i j (k + 1) - fluidParticle i j k = (0, 0, diam)
    ∧ (fluidParticle i 0 k).2.1 = startY
    ∧ (fluidParticle i j 0).2.2 + (fluidParticle i j (depth - 1)).2.2 = 0
    ∧ (fluidParticle 0 j k).1 - x1 = diam := by
  refine ⟨?_, ?_, ?_, ?_, ?_, ?_⟩ <;>
    · simp only [fluidParticle, depth, x1, startX, startY, startZ, diam,
        containerWidth, containerDepth, particleRadius, width,
        Prod.mk_sub_mk, Prod.smul_mk, Prod.mk_add_mk, smul_eq_mul, Prod.mk.injEq]
      push_cast
      norm_num
      try ring

/-! ## Step Driver, reset, and the perturbation controller

The mutable state touched by timeStep, reset, mouseMove: the TimeManager's
clock (time, stepSize), the DemoBase parameters (pause, pauseAt, numSteps),
the model's particle data (positions, velocities) together with the state
its external reset contract restores (initPositions, initVelocities), the
selection set, and the drag anchor oldMousePos.  stepsDone counts the
solver advance calls (simulation.step invocations) that have executed. -/

structure DemoState where
  time : ℚ
  stepSize : ℚ
  pause : Bool
  pauseAt : ℚ
  numSteps : ℕ
  positions : List Vector3r
  velocities : List Vector3r
  initPositions : List Vector3r
  initVelocities : List Vector3r
  selectedParticles : List ℕ
  oldMousePos : Vector3r
  dragActive : Bool
  stepsDone : ℕ

/-- One solver step.  The external solver's particle update is the
parameter f.  Modelled from the spec: simulation.step (TimeStepFluidModel,
outside this unit) performs one solver advance and then one clock advance
by exactly the step size. -/
def simStep (f : List Vector3r × List Vector3r → List Vector3r × List Vector3r)
    (s : DemoState) : DemoState :=
  { s with
    positions := (f (s.positions, s.velocities)).1
    velocities := (f (s.positions, s.velocities)).2
    time := s.time + s.stepSize
    stepsDone := s.stepsDone + 1 }

/-- The numSteps loop of timeStep: n solver steps back-to-back. -/
def runSteps (f : List Vector3r × List Vector3r → List Vector3r × List Vector3r) :
    ℕ → DemoState → DemoState
  | 0, s => s
  | n + 1, s => runSteps f n (simStep f s)

/-- timeStep(): if pauseAt > 0 and pauseAt < current time, set PAUSE; then
if PAUSE, return without stepping; otherwise run numSteps solver steps. -/
def timeStepTick
    (f : List Vector3r × List Vector3r → List Vector3r × List Vector3r)
    (s : DemoState) : DemoState :=
  if (if 0 < s.pauseAt ∧ s.pauseAt < s.time then { s with pause := true } else s).pause
  then (if 0 < s.pauseAt ∧ s.pauseAt < s.time then { s with pause := true } else s)
  else runSteps f s.numSteps
    (if 0 < s.pauseAt ∧ s.pauseAt < s.time then { s with pause := true } else s)

/-- reset(): model.reset() and simulation.reset() (modelled from the spec:
the external solver's reset contract restores the particle state to its
post-initScene state), then TimeManager::setTime(0.0).  Nothing else is
touched. -/
def resetDemo (s : DemoState) : DemoState :=
  { s with
    positions := s.initPositions
    velocities := s.initVelocities
    time := 0 }

/-- The loop body of mouseMove: add imp to the velocity of each selected
particle in selection order. -/
def applyImpulse (sel : List ℕ) (imp : Vector3r) (vs : List Vector3r) :
    List Vector3r :=
  sel.foldl (fun l i => l.set i (l.getD i 0 + imp)) vs

/-- mouseMove(x, y): with m the unprojected cursor position, add
5.0 * (m - oldMousePos) / h to every selected particle's velocity, then set
oldMousePos to m. -/
def mouseMove (m : Vector3r) (s : DemoState) : DemoState :=
  { s with
    velocities := applyImpulse s.selectedParticles
      ((5 / s.stepSize) • (m - s.oldMousePos)) s.velocities
    oldMousePos := m }

/-! ## Step Driver lemmas -/

theorem runSteps_fields
    (f : List Vector3r × List Vector3r → List Vector3r × List Vector3r)
    (n : ℕ) (s : DemoState) :
    (runSteps f n s).time = s.time + n * s.stepSize
    ∧ (runSteps f n s).stepSize = s.stepSize
    ∧ (runSteps f n s).pause = s.pause
    ∧ (runSteps f n s).pauseAt = s.pauseAt
    ∧ (runSteps f n s).numSteps = s.numSteps
    ∧ (runSteps f n s).stepsDone = s.stepsDone + n := by
  induction n generalizing s with
  | zero => simp [runSteps]
  | succ m ih =>
    obtain ⟨h1, h2, h3, h4, h5, h6⟩ := ih (simStep f s)
    have e : runSteps f (m + 1) s = runSteps f m (simStep f s) := rfl
    rw [e]
    refine ⟨?_, h2, h3, h4, h5, ?_⟩
    · rw [h1]
      show s.time + s.stepSize + (m : ℚ) * s.stepSize = _
      push_cast
      ring
    · rw [h6]
      show s.stepsDone + 1 + m = _
      omega

theorem timeStepTick_running
    (f : List Vector3r × List Vector3r → List Vector3r × List Vector3r)
    (s : DemoState) (h1 : s.pause = false) (h2 : s.pauseAt ≤ 0) :
    timeStepTick f s = runSteps f s.numSteps s := by
  have hc : ¬(0 < s.pauseAt ∧ s.pauseAt < s.time) :=
    fun h => absurd h.1 (not_lt.mpr h2)
  simp only [timeStepTick, if_neg hc, h1]
  simp

theorem timeStepTick_pausedFields
    (f : List Vector3r × List Vector3r → List Vector3r × List Vector3r)
    (t : DemoState) (h : t.pause = true) :
    (timeStepTick f t).time = t.time ∧ (timeStepTick f t).pause = true
    ∧ (timeStepTick f t).stepsDone = t.stepsDone := by
  by_cases hc : 0 < t.pauseAt ∧ t.pauseAt < t.time
  · simp only [timeStepTick, if_pos hc]
    simp
  · simp only [timeStepTick, if_neg hc]
    simp [h]

theorem iterate_running
    (f : List Vector3r × List Vector3r → List Vector3r × List Vector3r)
    (s : DemoState) (h1 : s.pause = false) (h2 : s.pauseAt ≤ 0) (N : ℕ) :
    ((timeStepTick f)^[N] s).time
      = s.time + N * ((s.numSteps : ℚ) * s.stepSize)
    ∧ ((timeStepTick f)^[N] s).pause = false
    ∧ ((timeStepTick f)^[N] s).pauseAt = s.pauseAt
    ∧ ((timeStepTick f)^[N] s).stepSize = s.stepSize
    ∧ ((timeStepTick f)^[N] s).numSteps = s.numSteps := by
  induction N with
  | zero => simpa using h1
  | succ m ih =>
    obtain ⟨e1, e2, e3, e4, e5⟩ := ih
    rw [Function.iterate_succ_apply']
    have hrun : timeStepTick f ((timeStepTick f)^[m] s)
        = runSteps f ((timeStepTick f)^[m] s).numSteps ((timeStepTick f)^[m] s) :=
      timeStepTick_running f _ e2 (by rw [e3]; exact h2)
    obtain ⟨r1, r2, r3, r4, r5, r6⟩ :=
      runSteps_fields f ((timeStepTick f)^[m] s).numSteps ((timeStepTick f)^[m] s)
    rw [hrun]
    refine ⟨?_, ?_, ?_, ?_, ?_⟩
    · rw [r1, e1, e4, e5]
      push_cast
      ring
    · rw [r3, e2]
    · rw [r4, e3]
    · rw [r2, e4]
    · rw [r5, e5]

theorem iterate_paused
    (f : List Vector3r × List Vector3r → List Vector3r × List Vector3r)
    (t : DemoState) (h : t.pause = true) (M : ℕ) :
    ((timeStepTick f)^[M] t).time = t.time
    ∧ ((timeStepTick f)^[M] t).pause = true := by
  induction M with
  | zero => simpa using h
  | succ m ih =>
    obtain ⟨e1, e2⟩ := ih
    rw [Function.iterate_succ_apply']
    obtain ⟨p1, p2, _⟩ := timeStepTick_pausedFields f ((timeStepTick f)^[m] t) e2
    exact ⟨by rw [p1, e1], p2⟩

/-- A running tick whose pre-step clock time exactly equals the positive
pause-at threshold. -/
def boundaryTickState : DemoState :=
  { time := 1, stepSize := 1 / 400, pause := false, pauseAt := 1, numSteps := 1,
    positions := [], velocities := [], initPositions := [], initVelocities := [],
    selectedParticles := [], oldMousePos := 0, dragActive := false,
    stepsDone := 0 }

/-- A running tick whose pre-step clock time is strictly past the positive
pause-at threshold. -/
def overshootState : DemoState :=
  { boundaryTickState with time := 2 }

/-- C2 (counterexample): with pause-at threshold T = 1 > 0, a render tick
whose pre-step clock time equals T exactly does not pause and executes one
solver step, contradicting the claim that such a tick executes zero steps:
the check is strict (pauseAt < time), not pauseAt ≤ time. -/
theorem pauseAt_boundary_cex :
    boundaryTickState.time = boundaryTickState.pauseAt
    ∧ 0 < boundaryTickState.pauseAt
    ∧ boundaryTickState.pause = false
    ∧ (timeStepTick id boundaryTickState).stepsDone
        = boundaryTickState.stepsDone + 1
    ∧ (timeStepTick id boundaryTickState).pause = false := by
  have hc : ¬(0 < boundaryTickState.pauseAt
      ∧ boundaryTickState.pauseAt < boundaryTickState.time) := by
    rintro ⟨-, h⟩
    exact absurd h (lt_irrefl _)
  refine ⟨rfl, one_pos, rfl, ?_, ?_⟩ <;>
    · simp only [timeStepTick, if_neg hc]
      simp [boundaryTickState, runSteps, simStep]

/-- C2 (amended): whenever the pause-at threshold T is positive, a render
tick whose pre-step clock time is strictly greater than T transitions to
Paused before executing any solver step in that tick (the result state is
exactly the input state with the pause flag set); but a tick whose pre-step
clock time equals T exactly does not auto-pause and executes its full
numSteps solver steps — auto-pause engages only once the clock has passed T. -/
theorem pauseAt_strict
    (f : List Vector3r × List Vector3r → List Vector3r × List Vector3r)
    (s t : DemoState)
    (hs1 : 0 < s.pauseAt) (hs2 : s.pauseAt < s.time)
    (ht1 : 0 < t.pauseAt) (ht2 : t.time = t.pauseAt) (ht3 : t.pause = false) :
    timeStepTick f s = { s with pause := true }
    ∧ (timeStepTick f t).stepsDone = t.stepsDone + t.numSteps
    ∧ (timeStepTick f t).pause = false := by
  have hcs : 0 < s.pauseAt ∧ s.pauseAt < s.time := ⟨hs1, hs2⟩
  have hct : ¬(0 < t.pauseAt ∧ t.pauseAt < t.time) := by
    rintro ⟨-, h⟩
    rw [ht2] at h
    exact absurd h (lt_irrefl _)
  obtain ⟨r1, r2, r3, r4, r5, r6⟩ := runSteps_fields f t.numSteps t
  refine ⟨?_, ?_, ?_⟩
  · simp only [timeStepTick, if_pos hcs]
    simp
  · simp only [timeStepTick, if_neg hct, ht3]
    simpa using r6
  · simp only [timeStepTick, if_neg hct, ht3]
    simpa using r3.trans ht3

/-- Witness for pauseAt_strict: threshold 1, overshot tick at time 2 and
boundary tick at time 1. -/
theorem pauseAt_strict_w :
    0 < overshootState.pauseAt
    ∧ overshootState.pauseAt < overshootState.time
    ∧ boundaryTickState.time = boundaryTickState.pauseAt
    ∧ boundaryTickState.pause = false
    ∧ timeStepTick id overshootState = { overshootState with pause := true }
    ∧ (timeStepTick id boundaryTickState).stepsDone
        = boundaryTickState.stepsDone + boundaryTickState.numSteps :=
  ⟨one_pos, one_lt_two, rfl, rfl,
    (pauseAt_strict id overshootState boundaryTickState
      one_pos one_lt_two one_pos rfl rfl).1,
    (pauseAt_strict id overshootState boundaryTickState
      one_pos one_lt_two one_pos rfl rfl).2.1⟩

/-- C5: while Running (pause flag clear, auto-pause threshold disabled),
N render ticks with k = numSteps steps per tick at fixed step size h advance
the clock to exactly time + N*k*h; while Paused the clock is unchanged
across any number of ticks; and every single tick advances the clock by a
whole natural multiple of the step size. -/
theorem clock_exact
    (f : List Vector3r × List Vector3r → List Vector3r × List Vector3r)
    (s t : DemoState) (N M : ℕ)
    (hs1 : s.pause = false) (hs2 : s.pauseAt ≤ 0) (ht : t.pause = true) :
    ((timeStepTick f)^[N] s).time
      = s.time + N * ((s.numSteps : ℚ) * s.stepSize)
    ∧ ((timeStepTick f)^[M] t).time = t.time
    ∧ ∀ u : DemoState, ∃ m : ℕ,
        (timeStepTick f u).time = u.time + m * u.stepSize := by
  refine ⟨(iterate_running f s hs1 hs2 N).1, (iterate_paused f t ht M).1, ?_⟩
  intro u
  by_cases hc : 0 < u.pauseAt ∧ u.pauseAt < u.time
  · refine ⟨0, ?_⟩
    simp only [timeStepTick, if_pos hc]
    simp
  · cases hu : u.pause
    · refine ⟨u.numSteps, ?_⟩
      simp only [timeStepTick, if_neg hc, hu]
      simpa using (runSteps_fields f u.numSteps u).1
    · refine ⟨0, ?_⟩
      simp only [timeStepTick, if_neg hc, hu]
      simp

/-- A running state with auto-pause disabled. -/
def runningState : DemoState :=
  { boundaryTickState with pauseAt := 0, numSteps := 4 }

/-- A paused state. -/
def pausedState : DemoState :=
  { boundaryTickState with pause := true }

/-- Witness for clock_exact: 3 running ticks of 4 steps each and 2 paused
ticks. -/
theorem clock_exact_w :
    runningState.pause = false
    ∧ runningState.pauseAt ≤ 0
    ∧ pausedState.pause = true
    ∧ ((timeStepTick id)^[3] runningState).time
        = runningState.time
          + 3 * ((runningState.numSteps : ℚ) * runningState.stepSize)
    ∧ ((timeStepTick id)^[2] pausedState).time = pausedState.time :=
  ⟨rfl, le_refl 0, rfl,
    (clock_exact id runningState pausedState 3 2 rfl (le_refl 0) rfl).1,
    (clock_exact id runningState pausedState 3 2 rfl (le_refl 0) rfl).2.1⟩

/-! ## Perturbation lemmas -/

theorem applyImpulse_getElem? (sel : List ℕ) (imp : Vector3r)
    (vs : List Vector3r) (p : ℕ) :
    (applyImpulse sel imp vs)[p]?
      = vs[p]?.map fun v => v + (sel.count p) • imp := by
  induction sel generalizing vs with
  | nil =>
    cases h : vs[p]? <;> simp [applyImpulse, h]
  | cons a sel ih =>
    have e : applyImpulse (a :: sel) imp vs
        = applyImpulse sel imp (vs.set a (vs.getD a 0 + imp)) := rfl
    rw [e, ih]
    by_cases hap : a = p
    · subst hap
      by_cases hlen : a < vs.length
      · rw [List.getElem?_set_self hlen, List.getElem?_eq_getElem hlen,
          List.getD_eq_getElem?_getD, List.getElem?_eq_getElem hlen]
        simp only [Option.getD_some, Option.map_some', List.count_cons_self,
          Option.some.injEq]
        rw [succ_nsmul]
        abel
      · have h1 : (vs.set a (vs.getD a 0 + imp))[a]? = none := by
          simp [List.getElem?_eq_none_iff, Nat.le_of_not_lt hlen]
        have h2 : vs[a]? = none := by
          simp [List.getElem?_eq_none_iff, Nat.le_of_not_lt hlen]
        rw [h1, h2]
        simp
    · rw [List.getElem?_set_ne hap, List.count_cons_of_ne (Ne.symm hap)]

/-- C6: a drag update adds (5/h) times the displacement from the previous
anchor to the new cursor position to the velocity of every currently
selected particle (count-many times for a duplicated index) and then sets
the anchor to the new position; consequently two consecutive drag updates
with deltas d1 then d2 produce exactly the velocities and anchor of a
single update with delta d1 + d2 — incremental-anchor accumulation, no
drift. -/
theorem mouseMove_linearity (s : DemoState) (m d1 d2 : Vector3r) (p : ℕ) :
    ((mouseMove m s).velocities[p]?
      = s.velocities[p]?.map fun v =>
          v + (s.selectedParticles.count p)
            • ((5 / s.stepSize) • (m - s.oldMousePos)))
    ∧ (mouseMove m s).oldMousePos = m
    ∧ (mouseMove (s.oldMousePos + d1 + d2)
          (mouseMove (s.oldMousePos + d1) s)).velocities
        = (mouseMove (s.oldMousePos + (d1 + d2)) s).velocities
    ∧ (mouseMove (s.oldMousePos + d1 + d2)
          (mouseMove (s.oldMousePos + d1) s)).oldMousePos
        = (mouseMove (s.oldMousePos + (d1 + d2)) s).oldMousePos := by
  refine ⟨applyImpulse_getElem? _ _ _ _, rfl, ?_, add_assoc s.oldMousePos d1 d2⟩
  apply List.ext_getElem?
  intro q
  simp only [mouseMove]
  rw [applyImpulse_getElem?, applyImpulse_getElem?, applyImpulse_getElem?,
    Option.map_map]
  congr 1
  funext v
  simp only [Function.comp_apply]
  have e1 : (s.oldMousePos + d1) - s.oldMousePos = d1 := by abel
  have e2 : (s.oldMousePos + d1 + d2) - (s.oldMousePos + d1) = d2 := by abel
  have e3 : (s.oldMousePos + (d1 + d2)) - s.oldMousePos = d1 + d2 := by abel
  rw [e1, e2, e3, smul_add ((5 : ℚ) / s.stepSize) d1 d2, smul_add]
  abel

/-- C7: reset(), callable while Running or Paused, zeroes the clock,
restores the particle state via the solver's reset contract, and leaves the
pause flag exactly as it was: it never resumes a paused simulation and
never pauses a running one. -/
theorem reset_spec (s : DemoState) :
    (resetDemo s).time = 0
    ∧ (resetDemo s).positions = s.initPositions
    ∧ (resetDemo s).velocities = s.initVelocities
    ∧ (resetDemo s).pause = s.pause :=
  ⟨rfl, rfl, rfl, rfl⟩

/-- C10: reset() leaves the selection set, the drag-handler registration and
the drag anchor unchanged, and a subsequent drag update applies its velocity
impulses to exactly the same selected indices, now on the restored particle
state. -/
theorem reset_keeps_selection (s : DemoState) (m : Vector3r) :
    (resetDemo s).selectedParticles = s.selectedParticles
    ∧ (resetDemo s).dragActive = s.dragActive
    ∧ (resetDemo s).oldMousePos = s.oldMousePos
    ∧ (mouseMove m (resetDemo s)).velocities
        = applyImpulse s.selectedParticles
            ((5 / s.stepSize) • (m - s.oldMousePos)) s.initVelocities :=
  ⟨rfl, rfl, rfl, rfl⟩

end FluidDemo
